import Mathlib

/-!
Verification of the signaling gateway in src/src/events/events.gateway.ts
(class EventsGateway).  The file carries two near-duplicate variants of the
gateway; the first (primary) variant is embedded below at top level, the
second in namespace Variant2.  The Room Store field
rooms : Map(string, Set(string)) is embedded as an association list whose
member sets are duplicate-free lists in insertion order, matching the
iteration order of the JavaScript Map and Set.
-/

abbrev ClientId := String
abbrev RoomId := String

/-- MAX_PARTICIPANTS = 2 in the gateway. -/
def MAX_PARTICIPANTS : Nat := 2

/-- Outbound transport emissions of the gateway, tagged with the receiving
connection.  The constructor names follow the emitted event names:
roomJoined for room-joined, roomError for room-error, newPeer for new-peer,
peerDisconnected for peer-disconnected, offer, answer, iceCandidate for
ice-candidate, signalingError for signaling-error.  The type parameter is
the uninspected payload type (RTCSessionDescriptionInit resp. RTCIceCandidate),
which the gateway never inspects. -/
inductive Event (α : Type) where
  | roomJoined (dst : ClientId) (success : Bool) (roomId : RoomId)
  | roomError (dst : ClientId) (error : String)
  | newPeer (dst : ClientId) (peerId : ClientId)
  | peerDisconnected (dst : ClientId) (peerId : ClientId)
  | offer (dst : ClientId) (payload : α) (senderId : ClientId)
  | answer (dst : ClientId) (payload : α) (senderId : ClientId)
  | iceCandidate (dst : ClientId) (payload : α) (senderId : ClientId)
  | signalingError (dst : ClientId) (error : String)
deriving DecidableEq, Repr

/-- The Room Store: rooms as an association list from room id to member
list, in Map insertion order. -/
abbrev Store := List (RoomId × List ClientId)

/-- Map.get: first binding of the key, none when absent. -/
def mapGet : Store → RoomId → Option (List ClientId)
  | [], _ => none
  | (k, v) :: rest, r => if k = r then some v else mapGet rest r

/-- Map.set: overwrite the binding in place when the key is present,
append a fresh binding otherwise (JavaScript Map keeps the original
insertion position on overwrite). -/
def mapSet : Store → RoomId → List ClientId → Store
  | [], r, v => [(r, v)]
  | (k, w) :: rest, r, v =>
      if k = r then (r, v) :: rest else (k, w) :: mapSet rest r v

/-- Set.add on the duplicate-free member list: a no-op when the element is
already present, append otherwise. -/
def setAdd (l : List ClientId) (c : ClientId) : List ClientId :=
  if c ∈ l then l else l ++ [c]

/-- The member list of a room, empty when the room is absent; mirrors
(this.rooms.get(roomId) || new Set()). -/
def roomMembers (rooms : Store) (r : RoomId) : List ClientId :=
  (mapGet rooms r).getD []

/-- The argument of join-room as delivered by the transport: either an
actual string or a non-string JavaScript value.  In the source, a falsy
non-string fails the !roomId check and a truthy non-string fails the
typeof check; both throw the same Invalid room ID error, so one
constructor covers every non-string value. -/
inductive JSArg where
  | str (s : String)
  | nonString
deriving DecidableEq, Repr

/-- handleConnection: logs only, no Room Store mutation, no emission. -/
def handleConnection (_client : ClientId) (rooms : Store) :
    Store × List (Event α) :=
  (rooms, [])

/-- cleanupClient of the primary variant: for every room holding the
client, delete it from the member set; delete the room when it became
empty, otherwise emit peer-disconnected to every remaining member.  The
rooms.forEach traversal is in store order, emissions of earlier rooms
first. -/
def cleanupClient (clientId : ClientId) : Store → Store × List (Event α)
  | [] => ([], [])
  | (roomId, participants) :: rest =>
      let r := cleanupClient clientId rest
      if participants.contains clientId then
        let participants2 := participants.erase clientId
        if participants2.length = 0 then
          r
        else
          ((roomId, participants2) :: r.1,
           participants2.map (fun peerId =>
             Event.peerDisconnected peerId clientId) ++ r.2)
      else
        ((roomId, participants) :: r.1, r.2)

/-- handleDisconnect: logs, then cleanupClient on the client id. -/
def handleDisconnect (client : ClientId) (rooms : Store) :
    Store × List (Event α) :=
  cleanupClient client rooms

/-- handleJoinRoom of the primary variant.  Validation order as in the
source: Invalid room ID for a non-string or empty id, Room is full when
the current member count already reached MAX_PARTICIPANTS; otherwise add
the client, store the room, emit room-joined to the caller and then, for
every other member, new-peer to that member about the caller and new-peer
to the caller about that member. -/
def handleJoinRoom (client : ClientId) (roomId : JSArg) (rooms : Store) :
    Store × List (Event α) :=
  match roomId with
  | .nonString => (rooms, [.roomError client "Invalid room ID"])
  | .str rid =>
      if rid = "" then
        (rooms, [.roomError client "Invalid room ID"])
      else
        let participants := roomMembers rooms rid
        if MAX_PARTICIPANTS ≤ participants.length then
          (rooms, [.roomError client "Room is full"])
        else
          let participants2 := setAdd participants client
          (mapSet rooms rid participants2,
           Event.roomJoined client true rid ::
             (participants2.filter (fun p => p ≠ client)).flatMap
               (fun peerId =>
                 [Event.newPeer peerId client, Event.newPeer client peerId]))

/-- validateRoomParticipant: the client is a member of an existing room. -/
def validateRoomParticipant (clientId : ClientId) (roomId : RoomId)
    (rooms : Store) : Bool :=
  match mapGet rooms roomId with
  | some participants => participants.contains clientId
  | none => false

/-- handleOffer: relay the offer payload to targetPeerId with
senderId = client when the sender is a room participant, otherwise emit
signaling-error to the caller.  The Room Store is never mutated. -/
def handleOffer (client : ClientId) (roomId : RoomId) (offer : α)
    (targetPeerId : ClientId) (rooms : Store) : List (Event α) :=
  if validateRoomParticipant client roomId rooms then
    [Event.offer targetPeerId offer client]
  else
    [Event.signalingError client "Not a room participant"]

/-- handleAnswer: as handleOffer, with the answer event kind. -/
def handleAnswer (client : ClientId) (roomId : RoomId) (answer : α)
    (targetPeerId : ClientId) (rooms : Store) : List (Event α) :=
  if validateRoomParticipant client roomId rooms then
    [Event.answer targetPeerId answer client]
  else
    [Event.signalingError client "Not a room participant"]

/-- handleIceCandidate: as handleOffer, with the ice-candidate event
kind. -/
def handleIceCandidate (client : ClientId) (roomId : RoomId) (candidate : α)
    (targetPeerId : ClientId) (rooms : Store) : List (Event α) :=
  if validateRoomParticipant client roomId rooms then
    [Event.iceCandidate targetPeerId candidate client]
  else
    [Event.signalingError client "Not a room participant"]

/-- Inbound events the gateway subscribes to. -/
inductive Op (α : Type) where
  | connect (client : ClientId)
  | disconnect (client : ClientId)
  | joinRoom (client : ClientId) (roomId : JSArg)
  | offer (client : ClientId) (roomId : RoomId) (payload : α)
      (targetPeerId : ClientId)
  | answer (client : ClientId) (roomId : RoomId) (payload : α)
      (targetPeerId : ClientId)
  | iceCandidate (client : ClientId) (roomId : RoomId) (payload : α)
      (targetPeerId : ClientId)
deriving DecidableEq, Repr

/-- Dispatch of one inbound event to its handler: resulting Room Store and
outbound emissions. -/
def step (rooms : Store) : Op α → Store × List (Event α)
  | .connect c => handleConnection c rooms
  | .disconnect c => handleDisconnect c rooms
  | .joinRoom c rid => handleJoinRoom c rid rooms
  | .offer c rid p t => (rooms, handleOffer c rid p t rooms)
  | .answer c rid p t => (rooms, handleAnswer c rid p t rooms)
  | .iceCandidate c rid p t => (rooms, handleIceCandidate c rid p t rooms)

/-- The Room Store after a sequence of inbound events, starting from the
empty store of server startup. -/
def run (ops : List (Op α)) : Store :=
  ops.foldl (fun s op => (step s op).1) []

/-- Room Store and full emission trace of a sequence of inbound events,
starting from the empty store. -/
def runTrace (ops : List (Op α)) : Store × List (Event α) :=
  ops.foldl
    (fun acc op =>
      let r := step acc.1 op
      (r.1, acc.2 ++ r.2))
    ([], [])

namespace Variant2

/-- cleanupClient of the second variant: member removal and empty-room
deletion as in the primary variant, but no peer-disconnected emission. -/
def cleanupClient (clientId : ClientId) : Store → Store × List (Event α)
  | [] => ([], [])
  | (roomId, participants) :: rest =>
      let r := cleanupClient clientId rest
      if participants.contains clientId then
        let participants2 := participants.erase clientId
        if participants2.length = 0 then
          r
        else
          ((roomId, participants2) :: r.1, r.2)
      else
        ((roomId, participants) :: r.1, r.2)

/-- handleJoinRoom of the second variant: identical Room Store logic, but
peer notification is a single room broadcast excluding the sender, so
every member of the transport room channel other than the caller receives
new-peer about the caller and the caller itself receives nothing. -/
def handleJoinRoom (client : ClientId) (roomId : JSArg) (rooms : Store) :
    Store × List (Event α) :=
  match roomId with
  | .nonString => (rooms, [.roomError client "Invalid room ID"])
  | .str rid =>
      if rid = "" then
        (rooms, [.roomError client "Invalid room ID"])
      else
        let participants := roomMembers rooms rid
        if MAX_PARTICIPANTS ≤ participants.length then
          (rooms, [.roomError client "Room is full"])
        else
          let participants2 := setAdd participants client
          (mapSet rooms rid participants2,
           Event.roomJoined client true rid ::
             (if 1 < participants2.length then
               (participants2.filter (fun p => p ≠ client)).map
                 (fun peerId => Event.newPeer peerId client)
             else []))

end Variant2

/-! Basic facts about the Room Store operations. -/

theorem mapGet_mem {s : Store} {r : RoomId} {v : List ClientId}
    (h : mapGet s r = some v) : (r, v) ∈ s := by
  induction s with
  | nil => simp [mapGet] at h
  | cons e rest ih =>
      obtain ⟨k, w⟩ := e
      by_cases hk : k = r
      · subst hk
        simp [mapGet] at h
        simp [h]
      · simp [mapGet, hk] at h
        exact List.mem_cons_of_mem _ (ih h)

theorem mapGet_eq_none_of_key_not_mem {s : Store} {r : RoomId}
    (h : ∀ e ∈ s, e.1 ≠ r) : mapGet s r = none := by
  induction s with
  | nil => rfl
  | cons e rest ih =>
      obtain ⟨k, w⟩ := e
      have hk : k ≠ r := h (k, w) (List.mem_cons_self _ _)
      simp [mapGet, hk]
      exact ih fun e he => h e (List.mem_cons_of_mem _ he)

theorem mapGet_mapSet_self (s : Store) (r : RoomId) (v : List ClientId) :
    mapGet (mapSet s r v) r = some v := by
  induction s with
  | nil => simp [mapSet, mapGet]
  | cons e rest ih =>
      obtain ⟨k, w⟩ := e
      by_cases hk : k = r
      · simp [mapSet, hk, mapGet]
      · simp [mapSet, hk, mapGet, ih]

theorem mem_mapSet {s : Store} {r : RoomId} {v : List ClientId}
    {e : RoomId × List ClientId} (h : e ∈ mapSet s r v) :
    e ∈ s ∨ e = (r, v) := by
  induction s with
  | nil => simp [mapSet] at h; simp [h]
  | cons f rest ih =>
      obtain ⟨k, w⟩ := f
      by_cases hk : k = r
      · subst hk
        simp [mapSet] at h
        rcases h with h | h
        · right; exact h
        · left; exact List.mem_cons_of_mem _ h
      · simp [mapSet, hk] at h
        rcases h with h | h
        · left; simp [h]
        · rcases ih h with h2 | h2
          · left; exact List.mem_cons_of_mem _ h2
          · right; exact h2

theorem key_mem_mapSet {s : Store} {r : RoomId} {v : List ClientId}
    {k : RoomId} (h : k ∈ (mapSet s r v).map Prod.fst) :
    k ∈ s.map Prod.fst ∨ k = r := by
  simp only [List.mem_map] at h
  obtain ⟨e, he, hk⟩ := h
  rcases mem_mapSet he with h2 | h2
  · left; exact List.mem_map.mpr ⟨e, h2, hk⟩
  · right; rw [h2] at hk; exact hk.symm

theorem keys_nodup_mapSet {s : Store} {r : RoomId} {v : List ClientId}
    (h : (s.map Prod.fst).Nodup) : ((mapSet s r v).map Prod.fst).Nodup := by
  induction s with
  | nil => simp [mapSet]
  | cons e rest ih =>
      obtain ⟨k, w⟩ := e
      simp only [List.map_cons, List.nodup_cons] at h
      by_cases hk : k = r
      · subst hk
        simpa [mapSet, List.nodup_cons] using h
      · have := ih h.2
        simp only [mapSet, hk, if_false, List.map_cons, List.nodup_cons]
        refine ⟨fun hmem => ?_, this⟩
        rcases key_mem_mapSet hmem with h2 | h2
        · exact h.1 h2
        · exact hk h2

theorem setAdd_nodup {l : List ClientId} {c : ClientId} (h : l.Nodup) :
    (setAdd l c).Nodup := by
  unfold setAdd
  split
  · exact h
  · next hc => simpa [List.nodup_append] using ⟨h, hc⟩

theorem setAdd_length_le (l : List ClientId) (c : ClientId) :
    (setAdd l c).length ≤ l.length + 1 := by
  unfold setAdd
  split
  · exact Nat.le_succ _
  · simp

theorem setAdd_ne_nil (l : List ClientId) (c : ClientId) :
    setAdd l c ≠ [] := by
  unfold setAdd
  split
  · next hc => exact List.ne_nil_of_mem hc
  · simp

theorem setAdd_of_mem {l : List ClientId} {c : ClientId} (h : c ∈ l) :
    setAdd l c = l := by
  simp [setAdd, h]

theorem setAdd_filter_ne (l : List ClientId) (c : ClientId) :
    (setAdd l c).filter (fun p => p ≠ c) = l.filter (fun p => p ≠ c) := by
  unfold setAdd
  split
  · rfl
  · simp

/-! Equation lemmas for handleJoinRoom, one per control path. -/

theorem handleJoinRoom_nonString {α : Type} (c : ClientId) (s : Store) :
    handleJoinRoom (α := α) c .nonString s =
      (s, [.roomError c "Invalid room ID"]) := rfl

theorem handleJoinRoom_emptyId {α : Type} (c : ClientId) (s : Store) :
    handleJoinRoom (α := α) c (.str "") s =
      (s, [.roomError c "Invalid room ID"]) := rfl

theorem handleJoinRoom_full {α : Type} {c : ClientId} {rid : RoomId}
    {s : Store} (hr : rid ≠ "")
    (h : MAX_PARTICIPANTS ≤ (roomMembers s rid).length) :
    handleJoinRoom (α := α) c (.str rid) s =
      (s, [.roomError c "Room is full"]) := by
  simp [handleJoinRoom, hr, h]

theorem handleJoinRoom_ok {α : Type} {c : ClientId} {rid : RoomId}
    {s : Store} (hr : rid ≠ "")
    (h : (roomMembers s rid).length < MAX_PARTICIPANTS) :
    handleJoinRoom (α := α) c (.str rid) s =
      (mapSet s rid (setAdd (roomMembers s rid) c),
       Event.roomJoined c true rid ::
         ((setAdd (roomMembers s rid) c).filter (fun p => p ≠ c)).flatMap
           (fun peerId =>
             [Event.newPeer peerId c, Event.newPeer c peerId])) := by
  simp [handleJoinRoom, hr, Nat.not_le.mpr h]

/-! Equation lemmas for cleanupClient, one per control path. -/

theorem cleanupClient_cons_skip {α : Type} {c k : String}
    {w : List ClientId} {rest : Store} (hw : c ∉ w) :
    cleanupClient (α := α) c ((k, w) :: rest) =
      ((k, w) :: (cleanupClient (α := α) c rest).1,
       (cleanupClient (α := α) c rest).2) := by
  simp [cleanupClient, hw]

theorem cleanupClient_cons_drop {α : Type} {c k : String}
    {w : List ClientId} {rest : Store} (hw : c ∈ w)
    (hlen : (w.erase c).length = 0) :
    cleanupClient (α := α) c ((k, w) :: rest) = cleanupClient c rest := by
  simp [cleanupClient, hw, hlen]

theorem cleanupClient_cons_keep {α : Type} {c k : String}
    {w : List ClientId} {rest : Store} (hw : c ∈ w)
    (hlen : ¬ (w.erase c).length = 0) :
    cleanupClient (α := α) c ((k, w) :: rest) =
      ((k, w.erase c) :: (cleanupClient (α := α) c rest).1,
       (w.erase c).map (fun peerId => Event.peerDisconnected peerId c) ++
         (cleanupClient (α := α) c rest).2) := by
  have hlen2 : ¬ (w.length - 1 = 0) := by
    rwa [List.length_erase_of_mem hw] at hlen
  simp [cleanupClient, hw, hlen2]

/-! Facts about cleanupClient. -/

theorem cleanupClient_not_mem {α : Type} {c : ClientId} {s : Store}
    (h : ∀ e ∈ s, c ∉ e.2) : cleanupClient (α := α) c s = (s, []) := by
  induction s with
  | nil => rfl
  | cons e rest ih =>
      obtain ⟨k, w⟩ := e
      have hw : c ∉ w := h (k, w) (List.mem_cons_self _ _)
      have hrest := ih fun e he => h e (List.mem_cons_of_mem _ he)
      rw [cleanupClient_cons_skip hw, hrest]

theorem cleanupClient_store_mem {α : Type} {c : ClientId} {s : Store}
    {e : RoomId × List ClientId} (h : e ∈ (cleanupClient (α := α) c s).1) :
    e ∈ s ∨ ∃ p, (e.1, p) ∈ s ∧ e.2 = p.erase c ∧ e.2 ≠ [] := by
  induction s with
  | nil => simp [cleanupClient] at h
  | cons f rest ih =>
      obtain ⟨k, w⟩ := f
      by_cases hw : c ∈ w
      · by_cases hlen : (w.erase c).length = 0
        · rw [cleanupClient_cons_drop hw hlen] at h
          rcases ih h with h2 | h2
          · exact Or.inl (List.mem_cons_of_mem _ h2)
          · obtain ⟨p, hp, hep, hen⟩ := h2
            exact Or.inr ⟨p, List.mem_cons_of_mem _ hp, hep, hen⟩
        · rw [cleanupClient_cons_keep hw hlen] at h
          rcases List.mem_cons.mp h with h2 | h2
          · refine Or.inr ⟨w, ?_, ?_, ?_⟩
            · rw [h2]; exact List.mem_cons_self _ _
            · rw [h2]
            · rw [h2]
              exact fun hnil =>
                hlen (by rw [show w.erase c = [] from hnil]; rfl)
          · rcases ih h2 with h3 | h3
            · exact Or.inl (List.mem_cons_of_mem _ h3)
            · obtain ⟨p, hp, hep, hen⟩ := h3
              exact Or.inr ⟨p, List.mem_cons_of_mem _ hp, hep, hen⟩
      · rw [cleanupClient_cons_skip hw] at h
        rcases List.mem_cons.mp h with h2 | h2
        · exact Or.inl (by rw [h2]; exact List.mem_cons_self _ _)
        · rcases ih h2 with h3 | h3
          · exact Or.inl (List.mem_cons_of_mem _ h3)
          · obtain ⟨p, hp, hep, hen⟩ := h3
            exact Or.inr ⟨p, List.mem_cons_of_mem _ hp, hep, hen⟩

theorem cleanupClient_keys_sublist {α : Type} (c : ClientId) (s : Store) :
    List.Sublist (((cleanupClient (α := α) c s).1).map Prod.fst)
      (s.map Prod.fst) := by
  induction s with
  | nil => simp [cleanupClient]
  | cons f rest ih =>
      obtain ⟨k, w⟩ := f
      by_cases hw : c ∈ w
      · by_cases hlen : (w.erase c).length = 0
        · rw [cleanupClient_cons_drop hw hlen]
          exact List.Sublist.cons _ ih
        · rw [cleanupClient_cons_keep hw hlen]
          exact List.Sublist.cons₂ _ ih
      · rw [cleanupClient_cons_skip hw]
        exact List.Sublist.cons₂ _ ih

theorem mapGet_cleanupClient_sole {α : Type} {c : ClientId} {R : RoomId}
    {s : Store} (hk : (s.map Prod.fst).Nodup)
    (hget : mapGet s R = some [c]) :
    mapGet ((cleanupClient (α := α) c s).1) R = none := by
  induction s with
  | nil => simp [mapGet] at hget
  | cons f rest ih =>
      obtain ⟨k, w⟩ := f
      simp only [List.map_cons, List.nodup_cons] at hk
      by_cases hkR : k = R
      · subst hkR
        simp [mapGet] at hget
        subst hget
        have hw : c ∈ [c] := List.mem_singleton.mpr rfl
        have hlen : (([c] : List ClientId).erase c).length = 0 := by simp
        rw [cleanupClient_cons_drop hw hlen]
        apply mapGet_eq_none_of_key_not_mem
        intro e he heq
        have hsub := cleanupClient_keys_sublist (α := α) c rest
        have : e.1 ∈ rest.map Prod.fst :=
          hsub.subset (List.mem_map.mpr ⟨e, he, rfl⟩)
        rw [heq] at this
        exact hk.1 this
      · simp only [mapGet, if_neg hkR] at hget
        have := ih hk.2 hget
        by_cases hw : c ∈ w
        · by_cases hlen : (w.erase c).length = 0
          · rw [cleanupClient_cons_drop hw hlen]
            exact this
          · rw [cleanupClient_cons_keep hw hlen]
            simp only [mapGet, if_neg hkR]
            exact this
        · rw [cleanupClient_cons_skip hw]
          simp only [mapGet, if_neg hkR]
          exact this

theorem cleanupClient_single_room {α : Type} {c : ClientId} {R : RoomId}
    {parts : List ClientId} {s : Store}
    (hk : (s.map Prod.fst).Nodup) (hget : mapGet s R = some parts)
    (hc : c ∈ parts) (hne : ¬ (parts.erase c).length = 0)
    (honly : ∀ e ∈ s, e.1 ≠ R → c ∉ e.2) :
    cleanupClient (α := α) c s =
      (mapSet s R (parts.erase c),
       (parts.erase c).map (fun peerId =>
         Event.peerDisconnected peerId c)) := by
  induction s with
  | nil => simp [mapGet] at hget
  | cons f rest ih =>
      obtain ⟨k, w⟩ := f
      simp only [List.map_cons, List.nodup_cons] at hk
      by_cases hkR : k = R
      · subst hkR
        simp [mapGet] at hget
        subst hget
        rw [cleanupClient_cons_keep hc hne]
        have hrest : cleanupClient (α := α) c rest = (rest, []) := by
          apply cleanupClient_not_mem
          intro e he
          refine honly e (List.mem_cons_of_mem _ he) fun heq => ?_
          exact hk.1 (heq ▸ List.mem_map.mpr ⟨e, he, rfl⟩)
        rw [hrest]
        simp [mapSet]
      · have hw : c ∉ w := honly (k, w) (List.mem_cons_self _ _) hkR
        rw [cleanupClient_cons_skip hw]
        simp only [mapGet, if_neg hkR] at hget
        rw [ih hk.2 hget fun e he => honly e (List.mem_cons_of_mem _ he)]
        simp [mapSet, hkR]

/-! The Room Store invariant maintained by the gateway: keys are distinct
non-empty room ids, member sets are non-empty duplicate-free lists of at
most MAX_PARTICIPANTS connections. -/

def EntryInv (e : RoomId × List ClientId) : Prop :=
  e.1 ≠ "" ∧ e.2 ≠ [] ∧ e.2.Nodup ∧ e.2.length ≤ MAX_PARTICIPANTS

def StoreInv (s : Store) : Prop :=
  (s.map Prod.fst).Nodup ∧ ∀ e ∈ s, EntryInv e

theorem storeInv_nil : StoreInv [] := ⟨List.nodup_nil, by simp⟩

theorem roomMembers_nodup {s : Store} {r : RoomId} (h : StoreInv s) :
    (roomMembers s r).Nodup := by
  unfold roomMembers
  cases hget : mapGet s r with
  | none => simp
  | some parts =>
      simpa using (h.2 (r, parts) (mapGet_mem hget)).2.2.1

theorem roomMembers_length_le {s : Store} {r : RoomId} (h : StoreInv s) :
    (roomMembers s r).length ≤ MAX_PARTICIPANTS := by
  unfold roomMembers
  cases hget : mapGet s r with
  | none => simp [MAX_PARTICIPANTS]
  | some parts =>
      simpa using (h.2 (r, parts) (mapGet_mem hget)).2.2.2

theorem storeInv_handleJoinRoom {α : Type} {s : Store} (h : StoreInv s)
    (c : ClientId) (arg : JSArg) :
    StoreInv ((handleJoinRoom (α := α) c arg s).1) := by
  cases arg with
  | nonString => rw [handleJoinRoom_nonString]; exact h
  | str rid =>
      by_cases hr : rid = ""
      · subst hr; rw [handleJoinRoom_emptyId]; exact h
      · by_cases hfull : MAX_PARTICIPANTS ≤ (roomMembers s rid).length
        · rw [handleJoinRoom_full hr hfull]; exact h
        · rw [handleJoinRoom_ok hr (Nat.not_le.mp hfull)]
          refine ⟨keys_nodup_mapSet h.1, fun e he => ?_⟩
          rcases mem_mapSet he with h2 | h2
          · exact h.2 e h2
          · rw [h2]
            refine ⟨hr, setAdd_ne_nil _ _,
              setAdd_nodup (roomMembers_nodup h), ?_⟩
            have hlt := Nat.not_le.mp hfull
            calc (setAdd (roomMembers s rid) c).length
                ≤ (roomMembers s rid).length + 1 := setAdd_length_le _ _
              _ ≤ MAX_PARTICIPANTS := hlt

theorem storeInv_cleanupClient {α : Type} {s : Store} (h : StoreInv s)
    (c : ClientId) : StoreInv ((cleanupClient (α := α) c s).1) := by
  refine ⟨List.Sublist.nodup (cleanupClient_keys_sublist c s) h.1,
    fun e he => ?_⟩
  rcases cleanupClient_store_mem he with h2 | h2
  · exact h.2 e h2
  · obtain ⟨p, hp, hep, hen⟩ := h2
    have hinv := h.2 (e.1, p) hp
    refine ⟨hinv.1, hen, ?_, ?_⟩
    · rw [hep]; exact List.Nodup.erase _ hinv.2.2.1
    · rw [hep]
      exact le_trans (List.Sublist.length_le (List.erase_sublist _ _))
        hinv.2.2.2

theorem storeInv_step {α : Type} {s : Store} (h : StoreInv s) (op : Op α) :
    StoreInv ((step s op).1) := by
  cases op with
  | connect c => exact h
  | disconnect c => exact storeInv_cleanupClient h c
  | joinRoom c arg => exact storeInv_handleJoinRoom h c arg
  | offer c rid p t => exact h
  | answer c rid p t => exact h
  | iceCandidate c rid p t => exact h

theorem storeInv_foldl {α : Type} (ops : List (Op α)) :
    ∀ s : Store, StoreInv s →
      StoreInv (ops.foldl (fun s op => (step s op).1) s) := by
  induction ops with
  | nil => exact fun s h => h
  | cons op rest ih =>
      intro s h
      exact ih _ (storeInv_step h op)

theorem storeInv_run {α : Type} (ops : List (Op α)) : StoreInv (run ops) :=
  storeInv_foldl ops [] storeInv_nil

theorem validateRoomParticipant_iff (c : ClientId) (r : RoomId) (s : Store) :
    validateRoomParticipant c r s = true ↔ c ∈ roomMembers s r := by
  unfold validateRoomParticipant roomMembers
  cases mapGet s r <;> simp

theorem mapSet_self {s : Store} {r : RoomId} {v : List ClientId}
    (h : mapGet s r = some v) : mapSet s r v = s := by
  induction s with
  | nil => simp [mapGet] at h
  | cons e rest ih =>
      obtain ⟨k, w⟩ := e
      by_cases hk : k = r
      · subst hk
        simp [mapGet] at h
        simp [mapSet, h]
      · simp only [mapGet, if_neg hk] at h
        simp [mapSet, hk, ih h]

theorem cleanupClient_events {α : Type} (c : ClientId) (s : Store) :
    ∀ ev ∈ (cleanupClient (α := α) c s).2,
      ∃ d, ev = Event.peerDisconnected d c := by
  induction s with
  | nil => simp [cleanupClient]
  | cons f rest ih =>
      obtain ⟨k, w⟩ := f
      intro ev hev
      by_cases hw : c ∈ w
      · by_cases hlen : (w.erase c).length = 0
        · rw [cleanupClient_cons_drop hw hlen] at hev
          exact ih ev hev
        · rw [cleanupClient_cons_keep hw hlen] at hev
          rcases List.mem_append.mp hev with h2 | h2
          · obtain ⟨d, _, hd⟩ := List.mem_map.mp h2
            exact ⟨d, hd.symm⟩
          · exact ih ev h2
      · rw [cleanupClient_cons_skip hw] at hev
        exact ih ev hev

/-- C2: every relay operation (offer, answer or ice-candidate) invoked by
a connection that is not currently a member of the given room fails with
the Not a room participant signaling-error to the caller, and the emission
list holds no relay event to any peer. -/
theorem C2_relay_requires_membership {α : Type} (s : Store) (c : ClientId)
    (r : RoomId) (p : α) (t : ClientId) (h : c ∉ roomMembers s r) :
    handleOffer c r p t s =
      [Event.signalingError c "Not a room participant"] ∧
    handleAnswer c r p t s =
      [Event.signalingError c "Not a room participant"] ∧
    handleIceCandidate c r p t s =
      [Event.signalingError c "Not a room participant"] := by
  have hval : validateRoomParticipant c r s = false := by
    cases hb : validateRoomParticipant c r s with
    | false => rfl
    | true => exact absurd ((validateRoomParticipant_iff c r s).mp hb) h
  refine ⟨?_, ?_, ?_⟩ <;>
    simp [handleOffer, handleAnswer, handleIceCandidate, hval]

theorem C2_relay_requires_membership_witness :
    "B" ∉ roomMembers [("x", ["A"])] "x" ∧
    handleOffer "B" "x" (0 : Nat) "A" [("x", ["A"])] =
      [Event.signalingError "B" "Not a room participant"] := by
  refine ⟨by decide, ?_⟩
  exact (C2_relay_requires_membership [("x", ["A"])] "B" "x" (0 : Nat) "A"
    (by decide)).1

/-- C3: join-room with an empty-string or non-string room id fails with
the Invalid room ID room-error to the caller and leaves the Room Store
untouched. -/
theorem C3_invalid_room_id {α : Type} (s : Store) (c : ClientId) :
    handleJoinRoom (α := α) c .nonString s =
      (s, [Event.roomError c "Invalid room ID"]) ∧
    handleJoinRoom (α := α) c (.str "") s =
      (s, [Event.roomError c "Invalid room ID"]) :=
  ⟨rfl, rfl⟩

/-- C7: a relay operation whose sender is a member of the room emits
exactly one outbound event of the same kind to targetPeerId, carrying the
payload verbatim and senderId equal to the sender. -/
theorem C7_relay_delivery {α : Type} (s : Store) (c : ClientId) (r : RoomId)
    (p : α) (t : ClientId) (h : c ∈ roomMembers s r) :
    handleOffer c r p t s = [Event.offer t p c] ∧
    handleAnswer c r p t s = [Event.answer t p c] ∧
    handleIceCandidate c r p t s = [Event.iceCandidate t p c] := by
  have hval := (validateRoomParticipant_iff c r s).mpr h
  refine ⟨?_, ?_, ?_⟩ <;>
    simp [handleOffer, handleAnswer, handleIceCandidate, hval]

theorem C7_relay_delivery_witness :
    "A" ∈ roomMembers [("x", ["A", "B"])] "x" ∧
    handleOffer "A" "x" (42 : Nat) "B" [("x", ["A", "B"])] =
      [Event.offer "B" (42 : Nat) "A"] := by
  refine ⟨by decide, ?_⟩
  exact (C7_relay_delivery [("x", ["A", "B"])] "A" "x" (42 : Nat) "B"
    (by decide)).1

/-- C8: the target of a relay is never checked against the member set:
when the sender is a member of the room, the relay is emitted to the
supplied targetPeerId even when that target is in no room of the store at
all (so in particular it fails its own participant validation). -/
theorem C8_target_not_validated {α : Type} (s : Store) (c : ClientId)
    (r : RoomId) (p : α) (t : ClientId) (hsender : c ∈ roomMembers s r)
    (htarget : ∀ e ∈ s, t ∉ e.2) :
    validateRoomParticipant t r s = false ∧
    handleOffer c r p t s = [Event.offer t p c] ∧
    handleAnswer c r p t s = [Event.answer t p c] ∧
    handleIceCandidate c r p t s = [Event.iceCandidate t p c] := by
  have hval := (validateRoomParticipant_iff c r s).mpr hsender
  have hvalt : validateRoomParticipant t r s = false := by
    cases hb : validateRoomParticipant t r s with
    | false => rfl
    | true =>
        have hmem := (validateRoomParticipant_iff t r s).mp hb
        unfold roomMembers at hmem
        cases hget : mapGet s r with
        | none => rw [hget] at hmem; simp at hmem
        | some parts =>
            rw [hget] at hmem
            exact absurd (by simpa using hmem)
              (htarget (r, parts) (mapGet_mem hget))
  refine ⟨hvalt, ?_, ?_, ?_⟩ <;>
    simp [handleOffer, handleAnswer, handleIceCandidate, hval]

theorem C8_target_not_validated_witness :
    "A" ∈ roomMembers [("x", ["A"])] "x" ∧
    validateRoomParticipant "Z" "x" [("x", ["A"])] = false ∧
    handleOffer "A" "x" (7 : Nat) "Z" [("x", ["A"])] =
      [Event.offer "Z" (7 : Nat) "A"] := by
  have h := C8_target_not_validated [("x", ["A"])] "A" "x" (7 : Nat) "Z"
    (by decide) (by decide)
  exact ⟨by decide, h.1, h.2.1⟩

/-- C9: handleConnection mutates no Room Store state and emits nothing;
handleDisconnect of a connection in no room leaves the store unchanged
with no emission, and handleDisconnect never fails: its every emission is
a peer-disconnected notification, never an error event. -/
theorem C9_connect_disconnect_frame {α : Type} (c : ClientId) (s : Store) :
    handleConnection (α := α) c s = (s, []) ∧
    ((∀ e ∈ s, c ∉ e.2) → handleDisconnect (α := α) c s = (s, [])) ∧
    (∀ ev ∈ (handleDisconnect (α := α) c s).2,
      ∃ d, ev = Event.peerDisconnected d c) := by
  refine ⟨rfl, ?_, ?_⟩
  · intro h
    simp only [handleDisconnect]
    exact cleanupClient_not_mem h
  · simp only [handleDisconnect]
    exact cleanupClient_events c s

theorem C9_connect_disconnect_frame_witness :
    handleConnection (α := Unit) "A" [("x", ["B"])] = ([("x", ["B"])], []) ∧
    handleDisconnect (α := Unit) "A" [("x", ["B"])] =
      ([("x", ["B"])], []) := by
  have h := C9_connect_disconnect_frame (α := Unit) "A" [("x", ["B"])]
  exact ⟨h.1, h.2.1 (by decide)⟩

/-- C1: in every state reachable by any sequence of inbound events the
member set of every room holds at most 2 distinct connections, and a
join-room on a room that already has 2 members fails with the Room is full
room-error, leaving the store unchanged. -/
theorem C1_room_capacity (ops : List (Op Unit)) (r : RoomId) :
    (roomMembers (run ops) r).Nodup ∧
    (roomMembers (run ops) r).length ≤ 2 ∧
    ∀ (c : ClientId) (parts : List ClientId),
      mapGet (run ops) r = some parts → parts.length = 2 →
        handleJoinRoom (α := Unit) c (.str r) (run ops) =
          (run ops, [Event.roomError c "Room is full"]) := by
  have hinv := storeInv_run (α := Unit) ops
  refine ⟨roomMembers_nodup hinv, roomMembers_length_le hinv, ?_⟩
  intro c parts hget hlen
  have hr : r ≠ "" := (hinv.2 (r, parts) (mapGet_mem hget)).1
  apply handleJoinRoom_full hr
  simp [roomMembers, hget, hlen, MAX_PARTICIPANTS]

theorem C1_room_capacity_witness :
    (roomMembers
      (run [Op.joinRoom (α := Unit) "A" (.str "x"),
            Op.joinRoom "B" (.str "x")]) "x").length ≤ 2 ∧
    handleJoinRoom (α := Unit) "C" (.str "x")
        (run [Op.joinRoom (α := Unit) "A" (.str "x"),
              Op.joinRoom "B" (.str "x")]) =
      (run [Op.joinRoom (α := Unit) "A" (.str "x"),
            Op.joinRoom "B" (.str "x")],
       [Event.roomError "C" "Room is full"]) := by
  refine ⟨(C1_room_capacity _ "x").2.1, ?_⟩
  exact (C1_room_capacity [Op.joinRoom (α := Unit) "A" (.str "x"),
    Op.joinRoom "B" (.str "x")] "x").2.2 "C" ["A", "B"] (by decide) (by decide)

/-- C4: no reachable Room Store holds a room with an empty member set;
after handleDisconnect of the sole member of a room that room is absent
from the store, and a subsequent join-room on it succeeds at occupancy
0 to 1, emitting only room-joined. -/
theorem C4_no_empty_rooms (ops : List (Op Unit)) (r : RoomId) :
    mapGet (run ops) r ≠ some [] ∧
    ∀ c : ClientId, mapGet (run ops) r = some [c] →
      mapGet ((handleDisconnect (α := Unit) c (run ops)).1) r = none ∧
      ∀ c2 : ClientId,
        handleJoinRoom (α := Unit) c2 (.str r)
            ((handleDisconnect (α := Unit) c (run ops)).1) =
          ((mapSet ((handleDisconnect (α := Unit) c (run ops)).1) r [c2]),
           [Event.roomJoined c2 true r]) ∧
        mapGet ((handleJoinRoom (α := Unit) c2 (.str r)
            ((handleDisconnect (α := Unit) c (run ops)).1)).1) r =
          some [c2] := by
  have hinv := storeInv_run (α := Unit) ops
  constructor
  · intro hget
    exact (hinv.2 (r, []) (mapGet_mem hget)).2.1 rfl
  · intro c hget
    have hr : r ≠ "" := (hinv.2 (r, [c]) (mapGet_mem hget)).1
    have hnone : mapGet ((handleDisconnect (α := Unit) c (run ops)).1) r =
        none := by
      simp only [handleDisconnect]
      exact mapGet_cleanupClient_sole hinv.1 hget
    refine ⟨hnone, fun c2 => ?_⟩
    have hmem : roomMembers ((handleDisconnect (α := Unit) c (run ops)).1) r
        = [] := by
      simp [roomMembers, hnone]
    have hok := handleJoinRoom_ok (α := Unit) (c := c2) hr
      (s := (handleDisconnect (α := Unit) c (run ops)).1)
      (by rw [hmem]; simp [MAX_PARTICIPANTS])
    rw [hmem] at hok
    have hadd : setAdd [] c2 = [c2] := by simp [setAdd]
    rw [hadd] at hok
    have hfilter : ([c2].filter (fun p => p ≠ c2)) = [] := by simp
    rw [hfilter] at hok
    simp only [List.flatMap_nil] at hok
    refine ⟨hok, ?_⟩
    rw [hok]
    exact mapGet_mapSet_self _ r [c2]

theorem C4_no_empty_rooms_witness :
    mapGet (run [Op.joinRoom (α := Unit) "A" (.str "x")]) "x" ≠ some [] ∧
    mapGet ((handleDisconnect (α := Unit) "A"
      (run [Op.joinRoom (α := Unit) "A" (.str "x")])).1) "x" = none ∧
    mapGet ((handleJoinRoom (α := Unit) "B" (.str "x")
        ((handleDisconnect (α := Unit) "A"
          (run [Op.joinRoom (α := Unit) "A" (.str "x")])).1)).1) "x" =
      some ["B"] := by
  have h := C4_no_empty_rooms [Op.joinRoom (α := Unit) "A" (.str "x")] "x"
  have h2 := h.2 "A" (by decide)
  exact ⟨h.1, h2.1, (h2.2 "B").2⟩

/-- C5: after handleDisconnect of one of the two members of a room, under
the one-room-per-connection assumption of the data model (the departing
connection belongs to no other room of the store), the single remaining
member receives exactly one peer-disconnected event carrying the departed
id, and the room still exists with exactly that one member. -/
theorem C5_disconnect_notifies_remaining (ops : List (Op Unit)) (r : RoomId)
    (c : ClientId) (parts : List ClientId)
    (hget : mapGet (run ops) r = some parts)
    (hlen : parts.length = 2) (hc : c ∈ parts)
    (honly : ∀ e ∈ run ops, e.1 ≠ r → c ∉ e.2) :
    ∃ d : ClientId, d ≠ c ∧ parts.erase c = [d] ∧
      handleDisconnect (α := Unit) c (run ops) =
        (mapSet (run ops) r [d], [Event.peerDisconnected d c]) ∧
      mapGet ((handleDisconnect (α := Unit) c (run ops)).1) r =
        some [d] := by
  have hinv := storeInv_run (α := Unit) ops
  have hnd : parts.Nodup := (hinv.2 (r, parts) (mapGet_mem hget)).2.2.1
  obtain ⟨a, b, hab⟩ := List.length_eq_two.mp hlen
  subst hab
  have hne : a ≠ b := by simpa using hnd
  have herase : ∃ d : ClientId, d ≠ c ∧ ([a, b].erase c = [d]) := by
    rcases List.mem_pair.mp hc with hca | hcb
    · subst hca
      exact ⟨b, fun hb => hne hb.symm, by simp [List.erase_cons_head]⟩
    · subst hcb
      exact ⟨a, hne, by simp [List.erase_cons_tail, List.erase_cons_head,
        hne]⟩
  obtain ⟨d, hdc, hd⟩ := herase
  have hne0 : ¬ (([a, b].erase c).length = 0) := by rw [hd]; simp
  have hclean := cleanupClient_single_room (α := Unit) hinv.1 hget hc hne0
    honly
  rw [hd] at hclean
  refine ⟨d, hdc, hd, ?_, ?_⟩
  · simp only [handleDisconnect]
    rw [hclean]
    simp
  · simp only [handleDisconnect]
    rw [hclean]
    exact mapGet_mapSet_self _ r [d]

theorem C5_disconnect_notifies_remaining_witness :
    handleDisconnect (α := Unit) "A"
        (run [Op.joinRoom (α := Unit) "A" (.str "x"),
              Op.joinRoom "B" (.str "x")]) =
      ([("x", ["B"])], [Event.peerDisconnected "B" "A"]) := by
  obtain ⟨d, hd1, hd2, hd3, hd4⟩ :=
    C5_disconnect_notifies_remaining
      [Op.joinRoom (α := Unit) "A" (.str "x"), Op.joinRoom "B" (.str "x")]
      "x" "A" ["A", "B"] (by decide) (by decide) (by decide) (by decide)
  have he : ((["A", "B"] : List ClientId).erase "A") = ["B"] := by decide
  rw [he] at hd2
  have hdB : d = "B" := by
    have := List.cons.inj hd2
    exact this.1.symm
  subst hdB
  rw [hd3]
  decide

/-- C10: a join-room by a connection already a member of the room succeeds
without growing the member set while the room is below capacity (the
Set.add is idempotent and the store is unchanged), yet fails with the Room
is full room-error when the room already has 2 members, even though the
caller is one of them. -/
theorem C10_rejoin_idempotent_or_full (ops : List (Op Unit)) (r : RoomId)
    (c : ClientId) (parts : List ClientId)
    (hget : mapGet (run ops) r = some parts) (hc : c ∈ parts) :
    (parts.length < 2 →
      handleJoinRoom (α := Unit) c (.str r) (run ops) =
        (run ops,
         Event.roomJoined c true r ::
           (parts.filter (fun p => p ≠ c)).flatMap
             (fun peerId =>
               [Event.newPeer peerId c, Event.newPeer c peerId]))) ∧
    (parts.length = 2 →
      handleJoinRoom (α := Unit) c (.str r) (run ops) =
        (run ops, [Event.roomError c "Room is full"])) := by
  have hinv := storeInv_run (α := Unit) ops
  have hr : r ≠ "" := (hinv.2 (r, parts) (mapGet_mem hget)).1
  have hmem : roomMembers (run ops) r = parts := by simp [roomMembers, hget]
  constructor
  · intro hlt
    have hok := handleJoinRoom_ok (α := Unit) (c := c) hr
      (by rw [hmem]; exact hlt)
    rw [hmem, setAdd_of_mem hc] at hok
    rw [hok, mapSet_self hget]
  · intro hlen
    apply handleJoinRoom_full hr
    rw [hmem, hlen]
    exact Nat.le_refl 2

theorem C10_rejoin_idempotent_or_full_witness :
    handleJoinRoom (α := Unit) "A" (.str "x")
        (run [Op.joinRoom (α := Unit) "A" (.str "x")]) =
      (run [Op.joinRoom (α := Unit) "A" (.str "x")],
       [Event.roomJoined "A" true "x"]) ∧
    handleJoinRoom (α := Unit) "A" (.str "x")
        (run [Op.joinRoom (α := Unit) "A" (.str "x"),
              Op.joinRoom "B" (.str "x")]) =
      (run [Op.joinRoom (α := Unit) "A" (.str "x"),
            Op.joinRoom "B" (.str "x")],
       [Event.roomError "A" "Room is full"]) := by
  constructor
  · have h := (C10_rejoin_idempotent_or_full
      [Op.joinRoom (α := Unit) "A" (.str "x")] "x" "A" ["A"]
      (by decide) (by decide)).1 (by decide)
    rw [h]
    decide
  · exact (C10_rejoin_idempotent_or_full
      [Op.joinRoom (α := Unit) "A" (.str "x"), Op.joinRoom "B" (.str "x")]
      "x" "A" ["A", "B"] (by decide) (by decide)).2 (by decide)

/-- Observation: an emission is a new-peer notification. -/
def isNewPeer {α : Type} : Event α → Bool
  | .newPeer _ _ => true
  | _ => false

theorem count_newPeer_flatMap_zero (l : List ClientId) (c m : ClientId)
    (hm : m ∉ l) (hmc : m ≠ c) :
    ((l.flatMap fun peerId =>
        [Event.newPeer (α := Unit) peerId c, Event.newPeer c peerId]).count
      (Event.newPeer (α := Unit) m c) = 0) ∧
    ((l.flatMap fun peerId =>
        [Event.newPeer (α := Unit) peerId c, Event.newPeer c peerId]).count
      (Event.newPeer (α := Unit) c m) = 0) := by
  induction l with
  | nil => simp
  | cons a rest ih =>
      have ham : a ≠ m := fun h => hm (h ▸ List.mem_cons_self _ _)
      have ih2 := ih fun h => hm (List.mem_cons_of_mem _ h)
      simp only [List.flatMap_cons, List.count_append]
      rw [ih2.1, ih2.2]
      constructor <;>
        simp [List.count_cons, ham, Ne.symm ham, hmc, Ne.symm hmc]

theorem count_newPeer_flatMap_one (l : List ClientId) (c m : ClientId)
    (hl : l.Nodup) (hm : m ∈ l) (hmc : m ≠ c) (hcl : c ∉ l) :
    ((l.flatMap fun peerId =>
        [Event.newPeer (α := Unit) peerId c, Event.newPeer c peerId]).count
      (Event.newPeer (α := Unit) m c) = 1) ∧
    ((l.flatMap fun peerId =>
        [Event.newPeer (α := Unit) peerId c, Event.newPeer c peerId]).count
      (Event.newPeer (α := Unit) c m) = 1) := by
  induction l with
  | nil => simp at hm
  | cons a rest ih =>
      simp only [List.nodup_cons] at hl
      have hac : a ≠ c := fun h => hcl (h ▸ List.mem_cons_self _ _)
      have hcrest : c ∉ rest := fun h => hcl (List.mem_cons_of_mem _ h)
      simp only [List.flatMap_cons, List.count_append]
      rcases List.mem_cons.mp hm with ham | hmrest
      · subst ham
        have hz := count_newPeer_flatMap_zero rest c m hl.1 hmc
        rw [hz.1, hz.2]
        constructor <;> simp [List.count_cons, hmc, Ne.symm hmc]
      · have ham : a ≠ m := fun h => hl.1 (h ▸ hmrest)
        have ihr := ih hl.2 hmrest hcrest
        rw [ihr.1, ihr.2]
        constructor <;>
          simp [List.count_cons, ham, Ne.symm ham, hmc, Ne.symm hmc, hac,
            Ne.symm hac]

theorem countP_isNewPeer_roomJoined_cons (c : ClientId) (b : Bool)
    (r : RoomId) (l : List (Event Unit)) :
    List.countP (fun e => isNewPeer e) (Event.roomJoined c b r :: l) =
      List.countP (fun e => isNewPeer e) l := by
  simp [List.countP_cons, isNewPeer]

theorem countP_isNewPeer_flatMap (l : List ClientId) (c : ClientId) :
    ((l.flatMap fun peerId =>
        [Event.newPeer (α := Unit) peerId c, Event.newPeer c peerId]).countP
      (fun e => isNewPeer e)) = 2 * l.length := by
  induction l with
  | nil => simp
  | cons a rest ih =>
      simp only [List.flatMap_cons, List.countP_append, ih, List.length_cons]
      simp [List.countP_cons, isNewPeer]
      omega

/-- C6: on a successful join-room, each pre-existing member receives
exactly one new-peer event carrying the newcomer and the newcomer receives
exactly one new-peer event per pre-existing member; the total number of
new-peer emissions is exactly two per pre-existing other member, and in
the concrete two-member trace each side has seen the other exactly
once. -/
theorem C6_join_peer_notifications (ops : List (Op Unit)) (c : ClientId)
    (r : RoomId) (hr : r ≠ "")
    (hlt : (roomMembers (run ops) r).length < MAX_PARTICIPANTS) :
    (∀ m ∈ roomMembers (run ops) r, m ≠ c →
      ((handleJoinRoom (α := Unit) c (.str r) (run ops)).2.count
          (Event.newPeer m c) = 1 ∧
       (handleJoinRoom (α := Unit) c (.str r) (run ops)).2.count
          (Event.newPeer c m) = 1)) ∧
    ((handleJoinRoom (α := Unit) c (.str r) (run ops)).2.countP
        (fun e => isNewPeer e) =
      2 * ((roomMembers (run ops) r).filter (fun p => p ≠ c)).length) ∧
    (runTrace [Op.joinRoom (α := Unit) "A" (.str "x"),
               Op.joinRoom "B" (.str "x")]).2.count
        (Event.newPeer (α := Unit) "A" "B") = 1 ∧
    (runTrace [Op.joinRoom (α := Unit) "A" (.str "x"),
               Op.joinRoom "B" (.str "x")]).2.count
        (Event.newPeer (α := Unit) "B" "A") = 1 := by
  have hinv := storeInv_run (α := Unit) ops
  have hok := handleJoinRoom_ok (α := Unit) (c := c) hr hlt
  set parts := roomMembers (run ops) r with hparts
  have hfe : (setAdd parts c).filter (fun p => p ≠ c) =
      parts.filter (fun p => p ≠ c) := setAdd_filter_ne parts c
  have hev : (handleJoinRoom (α := Unit) c (.str r) (run ops)).2 =
      Event.roomJoined c true r ::
        (parts.filter (fun p => p ≠ c)).flatMap
          (fun peerId =>
            [Event.newPeer peerId c, Event.newPeer c peerId]) := by
    rw [hok]
    simp only [hfe]
  have hndf : (parts.filter (fun p => p ≠ c)).Nodup :=
    List.Nodup.filter _ (roomMembers_nodup hinv)
  have hcf : c ∉ parts.filter (fun p => p ≠ c) := by
    intro h
    have := List.of_mem_filter h
    simp at this
  refine ⟨?_, ?_, by decide, by decide⟩
  · intro m hmem hmc
    have hmf : m ∈ parts.filter (fun p => p ≠ c) :=
      List.mem_filter.mpr ⟨hmem, by simpa using hmc⟩
    have h1 := count_newPeer_flatMap_one (parts.filter (fun p => p ≠ c)) c m
      hndf hmf hmc hcf
    rw [hev]
    constructor
    · rw [List.count_cons_of_ne (by simp)]
      exact h1.1
    · rw [List.count_cons_of_ne (by simp)]
      exact h1.2
  · rw [hev, countP_isNewPeer_roomJoined_cons]
    exact countP_isNewPeer_flatMap (parts.filter (fun p => p ≠ c)) c

theorem C6_join_peer_notifications_witness :
    (handleJoinRoom (α := Unit) "B" (.str "x")
        (run [Op.joinRoom (α := Unit) "A" (.str "x")])).2.count
      (Event.newPeer "A" "B") = 1 ∧
    (handleJoinRoom (α := Unit) "B" (.str "x")
        (run [Op.joinRoom (α := Unit) "A" (.str "x")])).2.count
      (Event.newPeer "B" "A") = 1 := by
  exact (C6_join_peer_notifications [Op.joinRoom (α := Unit) "A" (.str "x")]
    "B" "x" (by decide) (by decide)).1 "A" (by decide) (by decide)

/-! The second gateway variant mutates the Room Store exactly as the
primary one; only its emissions differ (no peer-disconnected on cleanup,
one-directional new-peer broadcast on join). -/

theorem variant2_cleanupClient_store_eq {α : Type} (c : ClientId)
    (s : Store) :
    (Variant2.cleanupClient (α := α) c s).1 =
      (cleanupClient (α := α) c s).1 := by
  induction s with
  | nil => rfl
  | cons f rest ih =>
      obtain ⟨k, w⟩ := f
      by_cases hw : c ∈ w
      · by_cases hlen : (w.erase c).length = 0
        · rw [cleanupClient_cons_drop hw hlen]
          simp only [Variant2.cleanupClient, List.elem_eq_mem, hw,
            decide_True, if_true, hlen]
          exact ih
        · rw [cleanupClient_cons_keep hw hlen]
          simp only [Variant2.cleanupClient, List.elem_eq_mem, hw,
            decide_True, if_true, hlen, if_false]
          simpa using ih
      · rw [cleanupClient_cons_skip hw]
        simp only [Variant2.cleanupClient, List.elem_eq_mem, hw,
          decide_False, Bool.false_eq_true, if_false]
        simpa using ih

theorem variant2_handleJoinRoom_store_eq {α : Type} (c : ClientId)
    (arg : JSArg) (s : Store) :
    (Variant2.handleJoinRoom (α := α) c arg s).1 =
      (handleJoinRoom (α := α) c arg s).1 := by
  cases arg with
  | nonString => rfl
  | str rid =>
      by_cases hr : rid = ""
      · subst hr; rfl
      · by_cases hfull : MAX_PARTICIPANTS ≤ (roomMembers s rid).length
        · simp [Variant2.handleJoinRoom, handleJoinRoom, hr, hfull]
        · simp [Variant2.handleJoinRoom, handleJoinRoom, hr, hfull]
